import Mathlib

/-!
# Verification of the claude-nerf-detector measurement and regression core

Shallow embedding of the regression detector of the repository
(`src/analysis/alerts.ts`, surfaced in the migration bundle), seven-day
baseline aggregation (`src/db/database.ts`), suite runner statistics
(`src/cli/test-runner.ts`), endpoint client (`src/llm/client.ts`) and the
submission comparison statistics (`src/app/api/submit/route.ts`).

Numbers are embedded as rationals (`ℚ`), JavaScript `undefined` as
`Option`, thrown exceptions as `Except`.
-/

namespace NerfDetector

/-- Health status of a run, the union type GREEN, YELLOW, RED in the source. -/
inductive Status where
  | GREEN
  | YELLOW
  | RED
  deriving DecidableEq, Repr

/-- Function `calculateStatus(flags)` from `src/analysis/alerts.ts`:
`RED` for two or more flags, `YELLOW` for exactly one, `GREEN` otherwise. -/
def calculateStatus (flags : List String) : Status :=
  if flags.length ≥ 2 then Status.RED
  else if flags.length = 1 then Status.YELLOW
  else Status.GREEN

/-- The `CurrentMetrics` interface of `src/analysis/alerts.ts`.
Optional (`?`) fields become `Option ℚ`. -/
structure CurrentMetrics where
  correctnessScore : ℚ
  ttftMedian : Option ℚ := none
  ttftP95 : Option ℚ := none
  latencyMedian : Option ℚ := none
  latencyP95 : Option ℚ := none
  tokensPerSecMedian : Option ℚ := none
  tokensPerSecP95 : Option ℚ := none
  outputTokensMedian : Option ℚ := none
  errorRate : ℚ
  deriving DecidableEq, Repr

/-- The `SevenDayStats` interface of `src/analysis/alerts.ts`: the rolling
7-day baseline.  Note that it carries no latency aggregate at all, only
TTFT, throughput, output-token and error aggregates. -/
structure SevenDayStats where
  avgCorrectness : ℚ
  avgTtftMedian : ℚ
  avgTtftP95 : ℚ
  avgTokensPerSecMedian : ℚ
  avgTokensPerSecP95 : ℚ
  avgOutputTokens : ℚ
  avgErrorRate : ℚ
  deriving DecidableEq, Repr

/-- First `if` block of `detectRegressions`: quality regression,
correctness down at least 2 points against the 7-day mean. -/
def qualityFlag (current : CurrentMetrics) (sevenDay : SevenDayStats) :
    List String :=
  if sevenDay.avgCorrectness > 0 ∧
      current.correctnessScore ≤ sevenDay.avgCorrectness - 2 then
    ["quality_regression"]
  else []

/-- Second `if` block of `detectRegressions`: median tokens/sec halved. -/
def tpsFlag (current : CurrentMetrics) (sevenDay : SevenDayStats) :
    List String :=
  match current.tokensPerSecMedian with
  | some v =>
    if sevenDay.avgTokensPerSecMedian > 0 ∧
        v < sevenDay.avgTokensPerSecMedian / 2 then
      ["performance_regression_tps"]
    else []
  | none => []

/-- Third `if` block of `detectRegressions`.  The source compares the
current `latencyP95` against `sevenDay.avgTtftP95 * 2` — the baseline has
no latency aggregate — which this embedding reproduces verbatim. -/
def latencyFlag (current : CurrentMetrics) (sevenDay : SevenDayStats) :
    List String :=
  match current.latencyP95 with
  | some v =>
    if sevenDay.avgTtftP95 > 0 ∧ v > sevenDay.avgTtftP95 * 2 then
      ["performance_regression_latency"]
    else []
  | none => []

/-- Fourth `if` block of `detectRegressions`: median output tokens dropped
by 25% or more (`0.75 = 3/4` exactly, also in binary floating point). -/
def outputCapFlag (current : CurrentMetrics) (sevenDay : SevenDayStats) :
    List String :=
  match current.outputTokensMedian with
  | some v =>
    if sevenDay.avgOutputTokens > 0 ∧ v < sevenDay.avgOutputTokens * (3 / 4) then
      ["output_cap_detected"]
    else []
  | none => []

/-- Fifth `if` block of `detectRegressions`: error rate up more than 10
absolute points.  Unlike the other rules it has no baseline `> 0` guard. -/
def errorRateFlag (current : CurrentMetrics) (sevenDay : SevenDayStats) :
    List String :=
  if current.errorRate > sevenDay.avgErrorRate + 1 / 10 then
    ["error_rate_increase"]
  else []

/-- Function `detectRegressions(current, sevenDay)` from `src/analysis/alerts.ts`.
Each rule is evaluated independently and pushes its flag onto the result
list, in source order. -/
def detectRegressions (current : CurrentMetrics) (sevenDay : SevenDayStats) :
    List String :=
  qualityFlag current sevenDay ++ tpsFlag current sevenDay ++
    latencyFlag current sevenDay ++ outputCapFlag current sevenDay ++
    errorRateFlag current sevenDay

/-- One persisted row of the `runs` table (`src/db/database.ts`), restricted
to the numeric columns aggregated or referenced by the detector.  The table
also stores `latency_median` / `latency_p95`, which `getSevenDayStats` does
NOT aggregate. -/
structure Run where
  correctness_score : ℚ
  ttft_median : ℚ
  ttft_p95 : ℚ
  latency_median : ℚ
  latency_p95 : ℚ
  tokens_per_sec_median : ℚ
  tokens_per_sec_p95 : ℚ
  output_tokens_median : ℚ
  error_rate : ℚ
  deriving DecidableEq, Repr

/-- SQL `AVG` over a column: sum divided by row count.  Over an empty window
`ℚ` division by zero yields `0`, matching the zero-filling `row.avg || 0`
that the source applies to the `NULL` an SQL `AVG` returns on no rows. -/
def listAvg (l : List ℚ) : ℚ :=
  l.sum / l.length

/-- Method `getSevenDayStats()` from `src/db/database.ts`, applied to the list of
runs that fall inside the trailing 7-day window: the mean of each selected
column, zero-filled when the window is empty.  No latency column is
selected. -/
def sevenDayStatsOf (runs : List Run) : SevenDayStats where
  avgCorrectness := listAvg (runs.map (·.correctness_score))
  avgTtftMedian := listAvg (runs.map (·.ttft_median))
  avgTtftP95 := listAvg (runs.map (·.ttft_p95))
  avgTokensPerSecMedian := listAvg (runs.map (·.tokens_per_sec_median))
  avgTokensPerSecP95 := listAvg (runs.map (·.tokens_per_sec_p95))
  avgOutputTokens := listAvg (runs.map (·.output_tokens_median))
  avgErrorRate := listAvg (runs.map (·.error_rate))

/-- Rendering of the specification `RollingBaseline` p95 latency: the arithmetic
mean of the `latency_p95` column over the 7-day window ("the arithmetic
mean of each numeric field of SuiteRun over the trailing 7-day window").
The source never computes this quantity. -/
def baselineLatencyP95 (runs : List Run) : ℚ :=
  listAvg (runs.map (·.latency_p95))

/-- A concrete historical run: healthy throughput and output, `ttft_p95 = 4`
seconds, `latency_p95 = 10` seconds. -/
def runC1 : Run where
  correctness_score := 3
  ttft_median := 3
  ttft_p95 := 4
  latency_median := 8
  latency_p95 := 10
  tokens_per_sec_median := 50
  tokens_per_sec_p95 := 60
  output_tokens_median := 500
  error_rate := 0

/-- A concrete current-metrics record whose p95 latency (9 s) is below the
mean p95 latency of the window (10 s) but above twice its mean p95 TTFT
(4 s). -/
def currentC1 : CurrentMetrics where
  correctnessScore := 3
  ttftMedian := some 3
  ttftP95 := some 4
  latencyMedian := some 8
  latencyP95 := some 9
  tokensPerSecMedian := some 50
  tokensPerSecP95 := some 60
  outputTokensMedian := some 500
  errorRate := 0

/-- Method `TestRunner.median(arr)` from `src/cli/test-runner.ts`: `undefined` on
an empty array; `arr[mid]` with `mid = ⌊len / 2⌋` when the length is odd
(`arr.length % 2` truthy); the average of the two middle elements when the
length is even. -/
def median (arr : List ℚ) : Option ℚ :=
  if h : arr.length = 0 then none
  else if arr.length % 2 = 1 then
    some (arr.get ⟨arr.length / 2, by omega⟩)
  else
    some ((arr.get ⟨arr.length / 2 - 1, by omega⟩ +
      arr.get ⟨arr.length / 2, by omega⟩) / 2)

/-- Method `TestRunner.percentile(arr, p)` from `src/cli/test-runner.ts`:
`undefined` on an empty array, otherwise the element at index
`⌈(p / 100) · len⌉ - 1` clamped above by `len - 1` via `Math.min`.  A
negative index (impossible for `p = 95` on a non-empty array) would read
`undefined` out of the array in JavaScript, which the bounds guard
reproduces. -/
def percentile (arr : List ℚ) (p : ℚ) : Option ℚ :=
  if arr.length = 0 then none
  else
    let index : ℤ := ⌈p / 100 * (arr.length : ℚ)⌉ - 1
    let i : ℤ := min index ((arr.length : ℤ) - 1)
    if h : 0 ≤ i ∧ i.toNat < arr.length then
      some (arr.get ⟨i.toNat, h.2⟩)
    else none

/-- One row of the `test_runs` table as selected by `getComparisonStats`
(`src/app/api/submit/route.ts`): `test_score`, nullable `continuous_score`,
`total_tests`. -/
structure TestRunRow where
  test_score : ℚ
  continuous_score : Option ℚ
  total_tests : ℚ
  deriving DecidableEq, Repr

/-- The score `r.continuous_score || (r.test_score / r.total_tests * 100)` from
`getComparisonStats`: JavaScript `||` falls through both on a missing and
on a zero (falsy) `continuous_score`. -/
def rowScore (r : TestRunRow) : ℚ :=
  match r.continuous_score with
  | some c => if c ≠ 0 then c else r.test_score / r.total_tests * 100
  | none => r.test_score / r.total_tests * 100

/-- JavaScript `Math.round` on a finite value: `⌊x + 1/2⌋`, rounding
half-integers toward positive infinity. -/
def jsRound (x : ℚ) : ℤ :=
  ⌊x + 1 / 2⌋

/-- The percentile computation of `getComparisonStats`
(`src/app/api/submit/route.ts`): count the 7-day window scores strictly
below the submitted score, divide by the window size, scale to 100 and
round.  The route returns `null` before reaching this point when the
window is empty. -/
def comparisonPercentile (userScore : ℚ) (rows : List TestRunRow) : ℤ :=
  let globalScores := rows.map rowScore
  let betterThan := (globalScores.filter (fun s => decide (s < userScore))).length
  jsRound ((betterThan : ℚ) / (globalScores.length : ℚ) * 100)

/-- The `LLMMetrics` interface of `src/llm/client.ts`.  Times are in
seconds, `ttft` absent when no content chunk was observed. -/
structure LLMMetrics where
  ttft : Option ℚ := none
  totalLatency : ℚ
  outputTokens : ℚ
  tokensPerSec : ℚ
  finishReason : Option String := none
  requestId : String
  deriving DecidableEq, Repr

/-- The `LLMResponse` interface of `src/llm/client.ts`. -/
structure LLMResponse where
  output : String
  metrics : LLMMetrics
  outputHash : String
  error : Option String := none
  deriving DecidableEq, Repr

/-- One event of the Anthropic message stream as inspected by
`executePrompt`: a `content_block_delta` (whose `delta` may or may not
carry a `text` payload), `message_start` with the message id,
`message_stop`, or any other chunk type. -/
inductive StreamChunk where
  | contentDelta (text : Option String)
  | messageStart (id : String)
  | messageStop
  | other
  deriving DecidableEq, Repr

/-- What a successful `messages.create` call plus stream iteration yields:
the observed chunks together with the two wall-clock readings the code
takes, in milliseconds since dispatch (`Date.now() - startTime` at the
first `content_block_delta`, and at stream completion). -/
structure StreamOutcome where
  chunks : List StreamChunk
  firstChunkMs : ℚ
  totalMs : ℚ

/-- The `for await (const chunk of stream)` body of `executePrompt`,
accumulating `(output, outputTokens, finishReason, requestId)`: text
deltas append to the output and bump the token counter, `message_stop`
sets the finish reason, `message_start` records a non-empty (truthy)
message id. -/
def foldChunk (acc : String × ℚ × Option String × String)
    (chunk : StreamChunk) : String × ℚ × Option String × String :=
  match chunk with
  | .contentDelta (some text) => (acc.1 ++ text, acc.2.1 + 1, acc.2.2.1, acc.2.2.2)
  | .contentDelta none => acc
  | .messageStop => (acc.1, acc.2.1, some "stop", acc.2.2.2)
  | .messageStart id => if id = "" then acc else (acc.1, acc.2.1, acc.2.2.1, id)
  | .other => acc

/-- Method `executePrompt(prompt, maxTokens, cacheBusting)` from
`src/llm/client.ts`, with the network interaction abstracted as an
`Except`: `.ok` carries the observed stream, `.error` carries the thrown
error message paired with the elapsed milliseconds at the moment of the
`catch`.  `hash` stands for `crypto.SHA256(·).toString()` and `now` for
the `Date.now()` reading used to synthesize fallback request ids.  The
function is total — a failed call produces a zeroed, error-tagged
response instead of propagating the exception. -/
def executePrompt (hash : String → String) (now : ℕ) (prompt : String)
    (maxTokens : ℕ) (cacheBusting : Bool)
    (call : Except (String × ℚ) StreamOutcome) : LLMResponse :=
  match call with
  | .ok s =>
    let folded := s.chunks.foldl foldChunk ("", 0, none, "")
    let totalLatency := s.totalMs / 1000
    { output := folded.1
      metrics :=
        { ttft :=
            if s.chunks.any (fun c =>
                match c with | .contentDelta _ => true | _ => false) then
              some (s.firstChunkMs / 1000)
            else none
          totalLatency := totalLatency
          outputTokens := folded.2.1
          tokensPerSec := folded.2.1 / totalLatency
          finishReason := folded.2.2.1
          requestId :=
            if folded.2.2.2 = "" then "req_" ++ toString now
            else folded.2.2.2 }
      outputHash := hash folded.1 }
  | .error e =>
    { output := ""
      metrics :=
        { ttft := none
          totalLatency := e.2 / 1000
          outputTokens := 0
          tokensPerSec := 0
          finishReason := none
          requestId := "error_" ++ toString now }
      outputHash := ""
      error := some e.1 }

/-- The `for (let i = 0; i <= maxRetries; i++)` loop of
`executeWithRetry` (`src/llm/client.ts`): run attempt `i`, return the
response as soon as its `error` field is unset, otherwise remember the
error and continue; `fuel` counts the remaining iterations.  When the
loop ends the most recent error is thrown (`.error`); `lastError` is
`none` only before the first iteration, so the "All retries failed"
fallback of `throw lastError || ...` is unreachable for positive fuel. -/
def retryLoop (attempts : ℕ → LLMResponse) :
    ℕ → ℕ → Option String → Except String LLMResponse
  | _, 0, lastError => .error (lastError.getD "All retries failed")
  | i, fuel + 1, _lastError =>
    match (attempts i).error with
    | none => .ok (attempts i)
    | some e => retryLoop attempts (i + 1) fuel (some e)

/-- Method `executeWithRetry(prompt, maxTokens, cacheBusting, maxRetries)` from
`src/llm/client.ts`: at most `maxRetries + 1` attempts starting at
attempt 0; the default `maxRetries = 0` performs a single attempt with no
retry.  `attempts i` abstracts the `LLMResponse` produced by the `i`-th
`executePrompt` call (which never throws); the exponential backoff delay
between attempts does not affect the returned value. -/
def executeWithRetry (attempts : ℕ → LLMResponse) (maxRetries : ℕ) :
    Except String LLMResponse :=
  retryLoop attempts 0 (maxRetries + 1) none

/-- A concrete successful response used to exercise the retry loop. -/
def respOkW : LLMResponse where
  output := "fine"
  metrics :=
    { ttft := some 1
      totalLatency := 2
      outputTokens := 4
      tokensPerSec := 2
      finishReason := some "stop"
      requestId := "msg_1" }
  outputHash := "hash1"

/-- A concrete failed response used to exercise the retry loop. -/
def respErrW : LLMResponse where
  output := ""
  metrics :=
    { ttft := none
      totalLatency := 1
      outputTokens := 0
      tokensPerSec := 0
      finishReason := none
      requestId := "error_7" }
  outputHash := ""
  error := some "boom"

/-- Attempt sequence whose first call fails and second succeeds. -/
def attemptsW : ℕ → LLMResponse :=
  fun i => if i = 0 then respErrW else respOkW

/-- Attempt sequence whose every call fails. -/
def attemptsE : ℕ → LLMResponse :=
  fun _ => respErrW

/-- JavaScript `String.includes`, over character lists: some suffix of `s`
starts with `pat`. -/
def listContains (s pat : List Char) : Bool :=
  s.tails.any fun t => pat.isPrefixOf t

/-- Substring containment `s.includes(pat)` on strings. -/
def strContains (s pat : String) : Bool :=
  listContains s.data pat.data

/-- Lower-casing `s.toLowerCase()`, as applied by the scoring functions to
ASCII program text. -/
def strToLower (s : String) : String :=
  String.mk (s.data.map Char.toLower)

/-- Prompt type of the catalog: correctness or performance. -/
inductive PromptType where
  | correctness
  | performance
  deriving DecidableEq, Repr

/-- The `TestPrompt` interface of `src/tests/prompts.ts`; the source field
`type` is spelled `ptype` here, and the runner-unused `hiddenTests` field
is omitted. -/
structure TestPrompt where
  id : String
  name : String
  prompt : String
  version : String
  ptype : PromptType
  replicates : ℕ
  scoring : Option (String → ℚ) := none

/-- The `scoring` function of catalog prompt P1 (`src/tests/prompts.ts`):
lower-case the output and look for the indicators of a heap-based
solution. -/
def scoringP1 (output : String) : ℚ :=
  let code := strToLower output
  let hasHeapImport :=
    strContains code "import heapq" || strContains code "from heapq"
  let hasFunction := strContains code "def find_kth_largest"
  let hasHeapPush :=
    strContains code "heappush" || strContains code "heapify"
  let hasCorrectLogic :=
    strContains code "heappop" || strContains code "nlargest"
  if hasHeapImport && hasFunction && (hasHeapPush || hasCorrectLogic) then 1
  else 0

/-- Catalog prompt P1 of `TEST_PROMPTS` (`src/tests/prompts.ts`). -/
def promptP1 : TestPrompt where
  id := "P1"
  name := "Deterministic Coding"
  prompt := "Write a Python function that finds the kth largest element in an unsorted array using a min-heap. The function should be called \x27find_kth_largest(nums, k)\x27 and handle edge cases. Output ONLY the function code, no explanation."
  version := "1.0.0"
  ptype := PromptType.correctness
  replicates := 2
  scoring := some scoringP1

/-- The `TestResult` interface of `src/cli/test-runner.ts`. -/
structure TestResult where
  promptId : String
  promptVersion : String
  replicateNumber : ℕ
  response : LLMResponse
  score : ℚ
  success : Bool

/-- One iteration of the replicate loop in `TestRunner.runSuite`
(`src/cli/test-runner.ts`): either the `executePrompt` call returned
(`.ok`, the `try` branch) or the iteration threw (`.error`, the `catch`
branch).  Returns the recorded `TestResult` together with the
`totalErrors` and `totalRefusals` increments of the iteration.  The
refusal condition transcribes the source literally with JavaScript
precedence, where `&&` binds tighter than `||`:
`(!success && output.includes("I cannot")) || output.includes("I can\x27t")`. -/
def processOutcome (prompt : TestPrompt) (rep : ℕ) (now : ℕ)
    (outcome : Except String LLMResponse) :
    TestResult × Bool × Bool :=
  match outcome with
  | .ok response =>
    if response.error.isSome then
      ({ promptId := prompt.id, promptVersion := prompt.version,
         replicateNumber := rep, response := response, score := 0,
         success := false }, true, false)
    else
      match prompt.ptype, prompt.scoring with
      | PromptType.correctness, some scoring =>
        let score := scoring response.output
        let success := score == 1
        let refusal :=
          (!success && strContains response.output "I cannot") ||
            strContains response.output "I can\x27t"
        ({ promptId := prompt.id, promptVersion := prompt.version,
           replicateNumber := rep, response := response, score := score,
           success := success }, false, refusal)
      | _, _ =>
        ({ promptId := prompt.id, promptVersion := prompt.version,
           replicateNumber := rep, response := response, score := 0,
           success := true }, false, false)
  | .error msg =>
    ({ promptId := prompt.id, promptVersion := prompt.version,
       replicateNumber := rep,
       response :=
         { output := ""
           metrics :=
             { ttft := none
               totalLatency := 0
               outputTokens := 0
               tokensPerSec := 0
               finishReason := none
               requestId := "error_" ++ toString now }
           outputHash := ""
           error := some msg }
       score := 0, success := false }, true, false)

/-- The replicate loop `for (let rep = 1; rep <= prompt.replicates; rep++)`
for one prompt of `runSuite`; `calls rep` abstracts what the
`executePrompt` call of that replicate produced (or threw). -/
def runPrompt (prompt : TestPrompt) (now : ℕ)
    (calls : ℕ → Except String LLMResponse) :
    List (TestResult × Bool × Bool) :=
  (List.range prompt.replicates).map fun i =>
    processOutcome prompt (i + 1) now (calls (i + 1))

/-- The prompt loop of `TestRunner.runSuite`: the per-replicate records of
every prompt of the catalog, in order.  The source iterates the
module-level `TEST_PROMPTS`; the catalog is a parameter here. -/
def runSuiteRecords (prompts : List TestPrompt) (now : ℕ)
    (calls : String → ℕ → Except String LLMResponse) :
    List (TestResult × Bool × Bool) :=
  prompts.flatMap fun p => runPrompt p now (calls p.id)

/-- The `totalRefusals` counter after the loops of `runSuite`: replicates
whose refusal increment fired. -/
def totalRefusals (records : List (TestResult × Bool × Bool)) : ℕ :=
  (records.filter fun r => r.2.2).length

/-- The `totalErrors` counter after the loops of `runSuite`. -/
def totalErrors (records : List (TestResult × Bool × Bool)) : ℕ :=
  (records.filter fun r => r.2.1).length

/-- The ratio `refusalRate = totalRefusals / totalTests` of `runSuite`;
`totalTests` is incremented once per loop iteration, i.e. the number of
records. -/
def refusalRate (records : List (TestResult × Bool × Bool)) : ℚ :=
  (totalRefusals records : ℚ) / (records.length : ℚ)

/-- A response for P1 whose output satisfies the P1 scorer (score 1,
success) while also containing the phrase «I can\x27t». -/
def respC3 : LLMResponse where
  output := "import heapq\ndef find_kth_largest(nums, k):\n    return heapq.nlargest(k, nums)[-1]\n# I can\x27t shorten this further"
  metrics :=
    { ttft := some (1 / 2)
      totalLatency := 2
      outputTokens := 30
      tokensPerSec := 15
      finishReason := some "stop"
      requestId := "msg_2" }
  outputHash := "hashP1"

/-- One `Map` update in `calculateCorrectnessScore`
(`src/cli/test-runner.ts`): append the score to the entry for `pid`,
creating the entry at the end on first sight — a JavaScript `Map`
preserves insertion order. -/
def insertScore : List (String × List ℚ) → String → ℚ → List (String × List ℚ)
  | [], pid, s => [(pid, [s])]
  | kv :: rest, pid, s =>
    if kv.1 = pid then (kv.1, kv.2 ++ [s]) :: rest
    else kv :: insertScore rest pid s

/-- The `promptScores` map of `calculateCorrectnessScore`, built by the
loop over the filtered results. -/
def buildPromptScores (pairs : List (String × ℚ)) : List (String × List ℚ) :=
  pairs.foldl (fun m r => insertScore m r.1 r.2) []

/-- The value `Math.max(...scores)` over a replicate group; the groups built by
`buildPromptScores` are never empty, so the `[]` case is unreachable. -/
def listMax : List ℚ → ℚ
  | [] => 0
  | x :: xs => xs.foldl max x

/-- The filter predicate of `calculateCorrectnessScore`:
`TEST_PROMPTS.find(p => p.id === r.promptId)?.type === correctness`
with the catalog as a parameter. -/
def isCorrectnessResult (prompts : List TestPrompt) (r : TestResult) : Bool :=
  match prompts.find? (fun p => p.id == r.promptId) with
  | some p => p.ptype == PromptType.correctness
  | none => false

/-- Method `TestRunner.calculateCorrectnessScore(results)` from
`src/cli/test-runner.ts`: keep the results of correctness prompts, group
their scores by `promptId` in a `Map`, and sum `Math.max` over each
group. -/
def calculateCorrectnessScore (prompts : List TestPrompt)
    (results : List TestResult) : ℚ :=
  let correctnessResults := results.filter (isCorrectnessResult prompts)
  let promptScores :=
    buildPromptScores (correctnessResults.map fun r => (r.promptId, r.score))
  (promptScores.map fun kv => listMax kv.2).sum

/-- The formulation of the correctness aggregate in the specification: the sum,
over each correctness prompt id having at least one replicate result, of
the maximum among the replicate scores of that prompt (best-of-N). -/
def specCorrectnessScore (prompts : List TestPrompt)
    (results : List TestResult) : ℚ :=
  let cr := results.filter (isCorrectnessResult prompts)
  ∑ pid ∈ (cr.map (·.promptId)).toFinset,
    listMax ((cr.filter fun r => r.promptId == pid).map (·.score))

/-- Keys of the association list standing for the JavaScript `Map`. -/
def keysOf (m : List (String × List ℚ)) : List String :=
  m.map Prod.fst

/-- The scores of key `k` among `pairs`, in order. -/
def scoresOf (pairs : List (String × ℚ)) (k : String) : List ℚ :=
  (pairs.filter fun r => r.1 == k).map (·.2)

/-- First occurrences of keys of `pairs` not yet in `seen`, in order. -/
def newKeys : List (String × ℚ) → List String → List String
  | [], _ => []
  | r :: rs, seen =>
    if r.1 ∈ seen then newKeys rs seen else r.1 :: newKeys rs (r.1 :: seen)

/-- First test result of the C6 example: prompt P1, replicate 1, score 1. -/
def resultP1a : TestResult where
  promptId := "P1"
  promptVersion := "1.0.0"
  replicateNumber := 1
  response := respOkW
  score := 1
  success := true

/-- Second test result of the C6 example: prompt P1, replicate 2, score 0. -/
def resultP1b : TestResult where
  promptId := "P1"
  promptVersion := "1.0.0"
  replicateNumber := 2
  response := respOkW
  score := 0
  success := false

end NerfDetector

namespace NerfDetector

/-- C4: `calculateStatus` maps every flag list totally by length:
`RED` iff at least two flags, `YELLOW` iff exactly one, `GREEN` iff none. -/
theorem calculateStatus_total_by_length (flags : List String) :
    (calculateStatus flags = Status.RED ↔ 2 ≤ flags.length) ∧
    (calculateStatus flags = Status.YELLOW ↔ flags.length = 1) ∧
    (calculateStatus flags = Status.GREEN ↔ flags.length = 0) := by
  rcases flags with _ | ⟨a, _ | ⟨b, t⟩⟩ <;>
    simp [calculateStatus, Nat.succ_le_succ]

/-- Membership in a guarded singleton flag list. -/
theorem mem_guarded_singleton {c : Prop} [Decidable c] {a b : String} :
    (a ∈ if c then [b] else []) ↔ c ∧ a = b := by
  split <;> simp_all

/-- C8: the `performance_regression_tps` flag is emitted exactly when the
current median tokens/sec is defined, the baseline median tokens/sec is
positive, and the current value is strictly below half the baseline; with
current median 4, baseline mean 10 it fires, with baseline mean 7 it does
not. -/
theorem tps_flag_iff_halved :
    (∀ (current : CurrentMetrics) (sevenDay : SevenDayStats),
      "performance_regression_tps" ∈ detectRegressions current sevenDay ↔
        ∃ v, current.tokensPerSecMedian = some v ∧
          sevenDay.avgTokensPerSecMedian > 0 ∧
          v < sevenDay.avgTokensPerSecMedian / 2) ∧
    "performance_regression_tps" ∈
      detectRegressions
        { correctnessScore := 5, tokensPerSecMedian := some 4, errorRate := 0 }
        { avgCorrectness := 5, avgTtftMedian := 0, avgTtftP95 := 0,
          avgTokensPerSecMedian := 10, avgTokensPerSecP95 := 0,
          avgOutputTokens := 0, avgErrorRate := 0 } ∧
    "performance_regression_tps" ∉
      detectRegressions
        { correctnessScore := 5, tokensPerSecMedian := some 4, errorRate := 0 }
        { avgCorrectness := 5, avgTtftMedian := 0, avgTtftP95 := 0,
          avgTokensPerSecMedian := 7, avgTokensPerSecP95 := 0,
          avgOutputTokens := 0, avgErrorRate := 0 } := by
  refine ⟨fun current sevenDay => ?_,
    by norm_num [detectRegressions, qualityFlag, tpsFlag, latencyFlag,
      outputCapFlag, errorRateFlag],
    by norm_num [detectRegressions, qualityFlag, tpsFlag, latencyFlag,
      outputCapFlag, errorRateFlag]⟩
  have hq : "performance_regression_tps" ∉ qualityFlag current sevenDay := by
    unfold qualityFlag
    rw [mem_guarded_singleton]
    rintro ⟨-, h⟩
    exact absurd h (by decide)
  have hl : "performance_regression_tps" ∉ latencyFlag current sevenDay := by
    unfold latencyFlag
    rcases current.latencyP95 with _ | v <;> dsimp only
    · simp
    · rw [mem_guarded_singleton]
      rintro ⟨-, h⟩
      exact absurd h (by decide)
  have ho : "performance_regression_tps" ∉ outputCapFlag current sevenDay := by
    unfold outputCapFlag
    rcases current.outputTokensMedian with _ | v <;> dsimp only
    · simp
    · rw [mem_guarded_singleton]
      rintro ⟨-, h⟩
      exact absurd h (by decide)
  have he : "performance_regression_tps" ∉ errorRateFlag current sevenDay := by
    unfold errorRateFlag
    rw [mem_guarded_singleton]
    rintro ⟨-, h⟩
    exact absurd h (by decide)
  have ht : "performance_regression_tps" ∈ tpsFlag current sevenDay ↔
      ∃ v, current.tokensPerSecMedian = some v ∧
        sevenDay.avgTokensPerSecMedian > 0 ∧
        v < sevenDay.avgTokensPerSecMedian / 2 := by
    unfold tpsFlag
    rcases h : current.tokensPerSecMedian with _ | v <;> dsimp only
    · simp
    · rw [mem_guarded_singleton]
      simp
  unfold detectRegressions
  simp only [List.mem_append, or_assoc]
  constructor
  · rintro (h | h | h | h | h)
    · exact absurd h hq
    · exact ht.mp h
    · exact absurd h hl
    · exact absurd h ho
    · exact absurd h he
  · intro h
    exact Or.inr (Or.inl (ht.mpr h))

/-- C1: on the window `[runC1]` (mean p95 latency 10, mean p95 TTFT 4) and
current p95 latency 9, the source emits `performance_regression_latency`
— it compares against twice the mean p95 *TTFT* — although the current
p95 latency is not greater than twice the baseline p95 latency, so the
claimed condition is false at this input. -/
theorem latency_flag_compares_against_ttft_baseline :
    currentC1.latencyP95 = some 9 ∧
    baselineLatencyP95 [runC1] = 10 ∧
    "performance_regression_latency" ∈
      detectRegressions currentC1 (sevenDayStatsOf [runC1]) ∧
    ¬ (9 : ℚ) > baselineLatencyP95 [runC1] * 2 := by
  have hb : baselineLatencyP95 [runC1] = 10 := by
    norm_num [baselineLatencyP95, listAvg, runC1]
  have hs : sevenDayStatsOf [runC1] =
      { avgCorrectness := 3, avgTtftMedian := 3, avgTtftP95 := 4,
        avgTokensPerSecMedian := 50, avgTokensPerSecP95 := 60,
        avgOutputTokens := 500, avgErrorRate := 0 } := by
    norm_num [sevenDayStatsOf, listAvg, runC1]
  refine ⟨rfl, hb, ?_, by rw [hb]; norm_num⟩
  rw [hs]
  norm_num [detectRegressions, qualityFlag, tpsFlag, latencyFlag,
    outputCapFlag, errorRateFlag, currentC1]

/-- C2 counterexample: a current record with error rate `1/5` against the
zero-filled cold-start baseline produces the flag `error_rate_increase`
and status `YELLOW`, not the empty flag set and `GREEN`. -/
theorem coldStart_not_always_green :
    detectRegressions { correctnessScore := 0, errorRate := 1 / 5 }
        (sevenDayStatsOf []) = ["error_rate_increase"] ∧
    calculateStatus (detectRegressions { correctnessScore := 0, errorRate := 1 / 5 }
        (sevenDayStatsOf [])) = Status.YELLOW := by
  have hflags : detectRegressions { correctnessScore := 0, errorRate := 1 / 5 }
      (sevenDayStatsOf []) = ["error_rate_increase"] := by
    norm_num [detectRegressions, qualityFlag, tpsFlag, latencyFlag,
      outputCapFlag, errorRateFlag, sevenDayStatsOf, listAvg]
  exact ⟨hflags, by rw [hflags]; rfl⟩

/-- C2 (amended): against the zero-filled cold-start baseline,
`detectRegressions` returns the empty flag set — and the derived status is
`GREEN` — provided the current error rate is at most `0.1`; the error-rate
rule has no baseline guard and fires above that threshold. -/
theorem coldStart_green_iff_low_error_rate (current : CurrentMetrics)
    (h : current.errorRate ≤ 1 / 10) :
    detectRegressions current (sevenDayStatsOf []) = [] ∧
    calculateStatus (detectRegressions current (sevenDayStatsOf [])) =
      Status.GREEN := by
  have hz : sevenDayStatsOf [] =
      { avgCorrectness := 0, avgTtftMedian := 0, avgTtftP95 := 0,
        avgTokensPerSecMedian := 0, avgTokensPerSecP95 := 0,
        avgOutputTokens := 0, avgErrorRate := 0 } := by
    simp [sevenDayStatsOf, listAvg]
  have hq : qualityFlag current (sevenDayStatsOf []) = [] := by
    rw [hz]; unfold qualityFlag
    rw [if_neg]; rintro ⟨h1, -⟩; exact absurd h1 (by norm_num)
  have ht : tpsFlag current (sevenDayStatsOf []) = [] := by
    rw [hz]; unfold tpsFlag
    rcases current.tokensPerSecMedian with _ | v <;> dsimp only
    rw [if_neg]; rintro ⟨h1, -⟩; exact absurd h1 (by norm_num)
  have hl : latencyFlag current (sevenDayStatsOf []) = [] := by
    rw [hz]; unfold latencyFlag
    rcases current.latencyP95 with _ | v <;> dsimp only
    rw [if_neg]; rintro ⟨h1, -⟩; exact absurd h1 (by norm_num)
  have ho : outputCapFlag current (sevenDayStatsOf []) = [] := by
    rw [hz]; unfold outputCapFlag
    rcases current.outputTokensMedian with _ | v <;> dsimp only
    rw [if_neg]; rintro ⟨h1, -⟩; exact absurd h1 (by norm_num)
  have he : errorRateFlag current (sevenDayStatsOf []) = [] := by
    rw [hz]; unfold errorRateFlag
    rw [if_neg]; intro h1; simp only at h1; linarith
  have hflags : detectRegressions current (sevenDayStatsOf []) = [] := by
    unfold detectRegressions
    rw [hq, ht, hl, ho, he]
    rfl
  exact ⟨hflags, by rw [hflags]; rfl⟩

/-- C2 witness: a concrete cold-start record with error rate `1/20`
satisfies the amended claim. -/
theorem coldStart_green_iff_low_error_rate_witness :
    detectRegressions { correctnessScore := 3, errorRate := 1 / 20 }
        (sevenDayStatsOf []) = [] ∧
    calculateStatus (detectRegressions { correctnessScore := 3, errorRate := 1 / 20 }
        (sevenDayStatsOf [])) = Status.GREEN :=
  coldStart_green_iff_low_error_rate _ (by norm_num)

/-- C5: on a non-empty array the suite runner median is the middle
element (odd length) or the average of the two middle elements (even
length), and its p95 is the element at index `⌈0.95·len⌉ - 1` clamped to
the last index; for `[1,2,3,4]` the median is `5/2` and the p95 value is
`4`; on the empty array both are absent, not zero. -/
theorem median_percentile_spec (arr : List ℚ) :
    (median ([] : List ℚ) = none ∧ percentile ([] : List ℚ) 95 = none) ∧
    (arr ≠ [] → arr.length % 2 = 1 →
      median arr = arr.get? (arr.length / 2)) ∧
    (arr ≠ [] → arr.length % 2 = 0 →
      ∃ a b, arr.get? (arr.length / 2 - 1) = some a ∧
        arr.get? (arr.length / 2) = some b ∧
        median arr = some ((a + b) / 2)) ∧
    (arr ≠ [] →
      percentile arr 95 =
        arr.get? (min (⌈(95 : ℚ) / 100 * (arr.length : ℚ)⌉ - 1).toNat
          (arr.length - 1))) ∧
    median [1, 2, 3, 4] = some (5 / 2) ∧
    percentile [1, 2, 3, 4] 95 = some 4 := by
  have hlen : ∀ l : List ℚ, l ≠ [] → l.length ≠ 0 := by
    intro l hl h0
    exact hl (List.length_eq_zero.mp h0)
  refine ⟨⟨rfl, rfl⟩, ?_, ?_, ?_, ?_, ?_⟩
  · intro h1 h2
    have h0 := hlen arr h1
    rw [median, dif_neg h0, if_pos h2,
      List.get?_eq_get (by omega : arr.length / 2 < arr.length)]
  · intro h1 h2
    have h0 := hlen arr h1
    refine ⟨arr.get ⟨arr.length / 2 - 1, by omega⟩,
      arr.get ⟨arr.length / 2, by omega⟩, ?_, ?_, ?_⟩
    · rw [List.get?_eq_get (by omega : arr.length / 2 - 1 < arr.length)]
    · rw [List.get?_eq_get (by omega : arr.length / 2 < arr.length)]
    · rw [median, dif_neg h0, if_neg (by omega)]
  · intro h1
    have h0 := hlen arr h1
    have hpos : (0 : ℚ) < 95 / 100 * (arr.length : ℚ) := by
      have : (0 : ℚ) < (arr.length : ℚ) := by
        exact_mod_cast Nat.pos_of_ne_zero h0
      positivity
    have hceil : 1 ≤ ⌈(95 : ℚ) / 100 * (arr.length : ℚ)⌉ := Int.ceil_pos.mpr hpos
    rw [percentile, if_neg h0]
    have hi : 0 ≤ min (⌈(95 : ℚ) / 100 * (arr.length : ℚ)⌉ - 1)
        ((arr.length : ℤ) - 1) := by omega
    have hj : min (⌈(95 : ℚ) / 100 * (arr.length : ℚ)⌉ - 1)
        ((arr.length : ℤ) - 1) ≤ (arr.length : ℤ) - 1 := min_le_right _ _
    have hi2 : (min (⌈(95 : ℚ) / 100 * (arr.length : ℚ)⌉ - 1)
        ((arr.length : ℤ) - 1)).toNat < arr.length := by omega
    have hidx : min (⌈(95 : ℚ) / 100 * (arr.length : ℚ)⌉ - 1).toNat
        (arr.length - 1) =
        (min (⌈(95 : ℚ) / 100 * (arr.length : ℚ)⌉ - 1)
          ((arr.length : ℤ) - 1)).toNat := by
      omega
    rw [dif_pos ⟨hi, hi2⟩, hidx, List.get?_eq_get hi2]
  · have : ([1, 2, 3, 4] : List ℚ).length = 4 := rfl
    rw [median, dif_neg (by omega), if_neg (by omega)]
    norm_num
  · rw [percentile, if_neg (by norm_num)]
    have hc : ⌈(95 : ℚ) / 100 * (([1, 2, 3, 4] : List ℚ).length : ℚ)⌉ = 4 := by
      rw [show (([1, 2, 3, 4] : List ℚ).length : ℚ) = 4 by norm_num]
      rw [show (95 : ℚ) / 100 * 4 = 19 / 5 by norm_num]
      rw [show ((19 : ℚ) / 5) = (19 / 5 : ℚ) by norm_num]
      norm_num [Int.ceil_eq_iff]
    rw [dif_pos]
    · simp only [hc]
      norm_num
      rfl
    · constructor <;> simp [hc]

/-- C5 witness: the general conjuncts instantiated at the concrete arrays
`[1,2,3]` (odd length) and `[1,2,3,4]` (even length and p95). -/
theorem median_percentile_spec_witness :
    (([1, 2, 3] : List ℚ) ≠ [] ∧ ([1, 2, 3] : List ℚ).length % 2 = 1 ∧
      median [1, 2, 3] =
        ([1, 2, 3] : List ℚ).get? (([1, 2, 3] : List ℚ).length / 2)) ∧
    (([1, 2, 3, 4] : List ℚ) ≠ [] ∧
      ([1, 2, 3, 4] : List ℚ).length % 2 = 0 ∧
      ∃ a b,
        ([1, 2, 3, 4] : List ℚ).get? (([1, 2, 3, 4] : List ℚ).length / 2 - 1) =
          some a ∧
        ([1, 2, 3, 4] : List ℚ).get? (([1, 2, 3, 4] : List ℚ).length / 2) =
          some b ∧
        median [1, 2, 3, 4] = some ((a + b) / 2)) ∧
    percentile ([1, 2, 3, 4] : List ℚ) 95 =
      ([1, 2, 3, 4] : List ℚ).get?
        (min (⌈(95 : ℚ) / 100 * ((([1, 2, 3, 4] : List ℚ).length : ℕ) : ℚ)⌉ - 1).toNat
          (([1, 2, 3, 4] : List ℚ).length - 1)) := by
  refine ⟨⟨by simp, by simp, (median_percentile_spec [1, 2, 3]).2.1 (by simp) (by simp)⟩,
    ⟨by simp, by simp, (median_percentile_spec [1, 2, 3, 4]).2.2.1 (by simp) (by simp)⟩,
    (median_percentile_spec [1, 2, 3, 4]).2.2.2.1 (by simp)⟩

/-- C9: for a non-empty 7-day window, the comparison percentile equals the
count of historical scores strictly below the submitted score, divided by
the window size, scaled to 100 and expressed as an integer between 0 and
100. -/
theorem comparison_percentile_spec (userScore : ℚ) (rows : List TestRunRow)
    (h : rows ≠ []) :
    comparisonPercentile userScore rows =
      jsRound
        (100 * ((rows.filter (fun r => decide (rowScore r < userScore))).length : ℚ) /
          (rows.length : ℚ)) ∧
    0 ≤ comparisonPercentile userScore rows ∧
    comparisonPercentile userScore rows ≤ 100 := by
  have hlen : 0 < rows.length := List.length_pos.mpr h
  have hT : (0 : ℚ) < (rows.length : ℚ) := by exact_mod_cast hlen
  have hEq : comparisonPercentile userScore rows =
      jsRound
        (100 * ((rows.filter (fun r => decide (rowScore r < userScore))).length : ℚ) /
          (rows.length : ℚ)) := by
    unfold comparisonPercentile
    dsimp only
    rw [List.filter_map rowScore rows, List.length_map, List.length_map]
    simp only [Function.comp_def]
    congr 1
    ring
  have hb : ((rows.filter (fun r => decide (rowScore r < userScore))).length : ℚ) ≤
      (rows.length : ℚ) := by
    exact_mod_cast List.length_filter_le _ rows
  have hb0 : (0 : ℚ) ≤
      ((rows.filter (fun r => decide (rowScore r < userScore))).length : ℚ) := by
    positivity
  refine ⟨hEq, ?_, ?_⟩
  · rw [hEq]
    unfold jsRound
    refine Int.floor_nonneg.mpr ?_
    have : (0 : ℚ) ≤
        100 * ((rows.filter (fun r => decide (rowScore r < userScore))).length : ℚ) /
          (rows.length : ℚ) := by positivity
    linarith
  · rw [hEq]
    unfold jsRound
    have hx : 100 * ((rows.filter (fun r => decide (rowScore r < userScore))).length : ℚ) /
        (rows.length : ℚ) ≤ 100 := by
      rw [div_le_iff₀ hT]
      nlinarith
    calc ⌊100 * ((rows.filter (fun r => decide (rowScore r < userScore))).length : ℚ) /
          (rows.length : ℚ) + 1 / 2⌋
        ≤ ⌊(201 : ℚ) / 2⌋ := Int.floor_le_floor (by linarith)
      _ = 100 := Int.floor_eq_iff.mpr (by norm_num)

/-- C9 witness: a window of three rows with scores 40 (zero
`continuous_score` falls back to `test_score`-derived 40), 60 and 80, and
submitted score 75: the percentile is a well-formed integer in `[0, 100]`
matching the strict-count formula. -/
theorem comparison_percentile_spec_witness :
    0 ≤ comparisonPercentile 75
        [{ test_score := 2, continuous_score := some 0, total_tests := 5 },
         { test_score := 3, continuous_score := none, total_tests := 5 },
         { test_score := 1, continuous_score := some 80, total_tests := 5 }] ∧
    comparisonPercentile 75
        [{ test_score := 2, continuous_score := some 0, total_tests := 5 },
         { test_score := 3, continuous_score := none, total_tests := 5 },
         { test_score := 1, continuous_score := some 80, total_tests := 5 }] ≤
      100 := by
  have h := comparison_percentile_spec 75
    [{ test_score := 2, continuous_score := some 0, total_tests := 5 },
     { test_score := 3, continuous_score := none, total_tests := 5 },
     { test_score := 1, continuous_score := some 80, total_tests := 5 }]
    (by simp)
  exact ⟨h.2.1, h.2.2⟩


/-- C7: for every prompt, token budget, cache-busting setting and caught
failure (message and elapsed time), `executePrompt` returns — it is
total, never propagating the exception — a response whose `error` is the
caught message, whose output is empty, whose `outputTokens` and
`tokensPerSec` are 0, and whose request id is the synthesized `error_`
id, so the suite runner can always proceed to the next replicate. -/
theorem executePrompt_error_path (hash : String → String) (now : ℕ)
    (prompt : String) (maxTokens : ℕ) (cacheBusting : Bool)
    (msg : String) (elapsedMs : ℚ) :
    (executePrompt hash now prompt maxTokens cacheBusting
        (.error (msg, elapsedMs))).error = some msg ∧
    (executePrompt hash now prompt maxTokens cacheBusting
        (.error (msg, elapsedMs))).output = "" ∧
    (executePrompt hash now prompt maxTokens cacheBusting
        (.error (msg, elapsedMs))).metrics.outputTokens = 0 ∧
    (executePrompt hash now prompt maxTokens cacheBusting
        (.error (msg, elapsedMs))).metrics.tokensPerSec = 0 ∧
    (executePrompt hash now prompt maxTokens cacheBusting
        (.error (msg, elapsedMs))).metrics.requestId =
      "error_" ++ toString now :=
  ⟨rfl, rfl, rfl, rfl, rfl⟩

/-- The value of the retry loop depends only on the attempts it can reach. -/
theorem retryLoop_congr (a₁ a₂ : ℕ → LLMResponse) :
    ∀ (fuel i : ℕ) (le : Option String),
      (∀ k, i ≤ k → k < i + fuel → a₁ k = a₂ k) →
      retryLoop a₁ i fuel le = retryLoop a₂ i fuel le := by
  intro fuel
  induction fuel with
  | zero => intro i le _; rfl
  | succ f ih =>
    intro i le h
    have hi : a₂ i = a₁ i := (h i le_rfl (by omega)).symm
    simp only [retryLoop, hi]
    rcases he : (a₁ i).error with _ | e
    · rfl
    · exact ih (i + 1) (some e) fun k hk1 hk2 => h k (by omega) (by omega)

/-- If attempt `j` is the first reachable attempt without an error, the
retry loop returns it. -/
theorem retryLoop_ok (attempts : ℕ → LLMResponse) :
    ∀ (fuel i j : ℕ) (le : Option String),
      i ≤ j → j < i + fuel → (attempts j).error = none →
      (∀ k, i ≤ k → k < j → (attempts k).error ≠ none) →
      retryLoop attempts i fuel le = .ok (attempts j) := by
  intro fuel
  induction fuel with
  | zero => intro i j le h1 h2 _ _; exact absurd h2 (by omega)
  | succ f ih =>
    intro i j le h1 h2 hj hmin
    simp only [retryLoop]
    rcases he : (attempts i).error with _ | e
    · have hij : i = j := by
        by_contra hne
        exact (hmin i le_rfl (by omega)) he
      rw [hij]
    · have hij : i ≠ j := by
        intro hij
        rw [hij, hj] at he
        cases he
      exact ih (i + 1) j (some e) (by omega) (by omega) hj
        fun k hk1 hk2 => hmin k (by omega) hk2

/-- If every reachable attempt errors, the retry loop throws the error of
the last attempt it ran. -/
theorem retryLoop_error (attempts : ℕ → LLMResponse) :
    ∀ (f i : ℕ) (le : Option String),
      (∀ k, i ≤ k → k < i + (f + 1) → (attempts k).error ≠ none) →
      ∃ e, (attempts (i + f)).error = some e ∧
        retryLoop attempts i (f + 1) le = .error e := by
  intro f
  induction f with
  | zero =>
    intro i le h
    rcases he : (attempts i).error with _ | e
    · exact absurd he (h i le_rfl (by omega))
    · exact ⟨e, by simpa using he, by simp [retryLoop, he]⟩
  | succ f ih =>
    intro i le h
    rcases he : (attempts i).error with _ | e
    · exact absurd he (h i le_rfl (by omega))
    · obtain ⟨e₂, he₂, hr⟩ := ih (i + 1) (some e)
        fun k hk1 hk2 => h k (by omega) (by omega)
      refine ⟨e₂, ?_, ?_⟩
      · rw [show i + (f + 1) = i + 1 + f by omega]
        exact he₂
      · simp only [retryLoop, he]
        exact hr

/-- C10: `executeWithRetry` reads at most `maxRetries + 1` attempts,
returns the first attempt whose `error` field is unset, throws the most
recent error when every attempt errors, and with the default
`maxRetries = 0` performs a single attempt. -/
theorem executeWithRetry_spec (attempts : ℕ → LLMResponse) (r : ℕ) :
    (∀ attempts₂ : ℕ → LLMResponse,
      (∀ k, k ≤ r → attempts k = attempts₂ k) →
      executeWithRetry attempts r = executeWithRetry attempts₂ r) ∧
    (∀ j, j ≤ r → (attempts j).error = none →
      (∀ k, k < j → (attempts k).error ≠ none) →
      executeWithRetry attempts r = .ok (attempts j)) ∧
    ((∀ k, k ≤ r → (attempts k).error ≠ none) →
      ∃ e, (attempts r).error = some e ∧
        executeWithRetry attempts r = .error e) ∧
    (executeWithRetry attempts 0 =
      match (attempts 0).error with
      | none => .ok (attempts 0)
      | some e => .error e) := by
  refine ⟨?_, ?_, ?_, ?_⟩
  · intro a₂ h
    exact retryLoop_congr attempts a₂ (r + 1) 0 none
      fun k hk1 hk2 => h k (by omega)
  · intro j h1 h2 h3
    exact retryLoop_ok attempts (r + 1) 0 j none (by omega) (by omega) h2
      fun k _ hk2 => h3 k hk2
  · intro h
    obtain ⟨e, he, hr⟩ := retryLoop_error attempts r 0 none
      fun k _ hk2 => h k (by omega)
    exact ⟨e, by simpa using he, hr⟩
  · rcases he : (attempts 0).error with _ | e <;>
      simp [executeWithRetry, retryLoop, he]

/-- C10 witness: with a failing first and succeeding second attempt,
`executeWithRetry` with one retry returns the second response; when both
attempts fail it throws the most recent error. -/
theorem executeWithRetry_spec_witness :
    executeWithRetry attemptsW 1 = .ok (attemptsW 1) ∧
    (∃ e, (attemptsE 1).error = some e ∧
      executeWithRetry attemptsE 1 = .error e) := by
  constructor
  · refine (executeWithRetry_spec attemptsW 1).2.1 1 le_rfl rfl ?_
    intro k hk
    have hk0 : k = 0 := by omega
    subst hk0
    simp [attemptsW, respErrW]
  · refine (executeWithRetry_spec attemptsE 1).2.2.1 ?_
    intro k _
    simp [attemptsE, respErrW]


/-- C3: over the genuine catalog prompt P1, a suite run in which both
replicates return an output that the P1 scorer accepts (score 1, success)
while containing the phrase «I can» followed by an apostrophe and «t»
nevertheless counts both replicates toward the refusal total: in the
unparenthesized refusal condition of the source the second `includes` test is
not guarded by `!success`, so successful replicates are counted,
refuting the claim that only failed replicates are. -/
theorem refusal_counted_despite_success :
    totalRefusals (runSuiteRecords [promptP1] 0 fun _ _ => .ok respC3) = 2 ∧
    ∀ rec ∈ runSuiteRecords [promptP1] 0 fun _ _ => .ok respC3,
      rec.1.success = true := by
  constructor
  · decide
  · decide

/-- Head and tail of `keysOf`. -/
theorem keysOf_cons (kv : String × List ℚ) (rest : List (String × List ℚ)) :
    keysOf (kv :: rest) = kv.1 :: keysOf rest :=
  rfl

/-- Inserting an unseen key appends a fresh singleton entry. -/
theorem insertScore_not_mem (pid : String) (s : ℚ) :
    ∀ m : List (String × List ℚ), pid ∉ keysOf m →
      insertScore m pid s = m ++ [(pid, [s])] := by
  intro m
  induction m with
  | nil => intro _; rfl
  | cons kv rest ih =>
    intro h
    rw [keysOf_cons, List.mem_cons] at h
    push_neg at h
    simp [insertScore, Ne.symm h.1, ih h.2]

/-- Inserting a seen key (under distinct keys) appends the score to that
entry of that key. -/
theorem insertScore_mem (pid : String) (s : ℚ) :
    ∀ m : List (String × List ℚ), (keysOf m).Nodup → pid ∈ keysOf m →
      insertScore m pid s =
        m.map fun kv => if kv.1 = pid then (kv.1, kv.2 ++ [s]) else kv := by
  intro m
  induction m with
  | nil => intro _ h; cases h
  | cons kv rest ih =>
    intro hnd hmem
    rw [keysOf_cons, List.nodup_cons] at hnd
    rw [keysOf_cons, List.mem_cons] at hmem
    rcases eq_or_ne kv.1 pid with he | hne
    · have hrest : rest.map (fun kv => if kv.1 = pid then (kv.1, kv.2 ++ [s]) else kv) =
          rest := by
        rw [show rest = rest.map id by simp]
        rw [List.map_map]
        refine List.map_congr_left fun x hx => ?_
        have hx1 : x.1 ≠ pid := by
          intro hxe
          refine hnd.1 ?_
          rw [he, ← hxe]
          exact List.mem_map_of_mem Prod.fst hx
        simp [hx1]
      simp [insertScore, he, hrest]
    · have hm2 : pid ∈ keysOf rest := by
        rcases hmem with h1 | h1
        · exact absurd h1.symm hne
        · exact h1
      simp [insertScore, hne, ih hnd.2 hm2]

/-- Keys after insertion: unchanged for a seen key, extended at the end
for a fresh one. -/
theorem keysOf_insertScore (pid : String) (s : ℚ) :
    ∀ m : List (String × List ℚ),
      keysOf (insertScore m pid s) =
        if pid ∈ keysOf m then keysOf m else keysOf m ++ [pid] := by
  intro m
  induction m with
  | nil => simp [insertScore, keysOf]
  | cons kv rest ih =>
    rcases eq_or_ne kv.1 pid with he | hne
    · have hmem : pid ∈ keysOf (kv :: rest) := by
        rw [keysOf_cons]
        exact he ▸ List.mem_cons_self _ _
      rw [if_pos hmem]
      simp [insertScore, he, keysOf_cons]
    · have hstep : insertScore (kv :: rest) pid s =
          kv :: insertScore rest pid s := by
        simp [insertScore, hne]
      rw [hstep, keysOf_cons, keysOf_cons, ih]
      by_cases hm : pid ∈ keysOf rest
      · rw [if_pos hm, if_pos (List.mem_cons_of_mem _ hm)]
      · rw [if_neg hm, if_neg ?_, List.cons_append]
        rw [List.mem_cons]
        push_neg
        exact ⟨Ne.symm hne, hm⟩

/-- Insertion preserves distinctness of keys. -/
theorem keysOf_insertScore_nodup (pid : String) (s : ℚ)
    (m : List (String × List ℚ)) (h : (keysOf m).Nodup) :
    (keysOf (insertScore m pid s)).Nodup := by
  rw [keysOf_insertScore]
  by_cases hm : pid ∈ keysOf m
  · rwa [if_pos hm]
  · rw [if_neg hm]
    simp [List.nodup_append, h, hm]


/-- The keys produced by `newKeys` only depend on the membership of `seen`. -/
theorem newKeys_congr :
    ∀ (rs : List (String × ℚ)) (s₁ s₂ : List String),
      (∀ x, x ∈ s₁ ↔ x ∈ s₂) → newKeys rs s₁ = newKeys rs s₂ := by
  intro rs
  induction rs with
  | nil => intro _ _ _; rfl
  | cons r rest ih =>
    intro s₁ s₂ h
    show (if r.1 ∈ s₁ then newKeys rest s₁ else r.1 :: newKeys rest (r.1 :: s₁)) =
      (if r.1 ∈ s₂ then newKeys rest s₂ else r.1 :: newKeys rest (r.1 :: s₂))
    by_cases hm : r.1 ∈ s₁
    · rw [if_pos hm, if_pos ((h r.1).mp hm), ih _ _ h]
    · rw [if_neg hm, if_neg (fun hc => hm ((h r.1).mpr hc)),
        ih (r.1 :: s₁) (r.1 :: s₂) fun x => by simp [h x]]

/-- A produced key was not in `seen`. -/
theorem newKeys_not_seen :
    ∀ (rs : List (String × ℚ)) (seen : List String) (k : String),
      k ∈ newKeys rs seen → k ∉ seen := by
  intro rs
  induction rs with
  | nil => intro seen k h; cases h
  | cons r rest ih =>
    intro seen k h
    by_cases hm : r.1 ∈ seen
    · rw [newKeys, if_pos hm] at h
      exact ih seen k h
    · rw [newKeys, if_neg hm] at h
      rcases List.mem_cons.mp h with he | ht
      · subst he; exact hm
      · exact fun hk => ih _ k ht (List.mem_cons_of_mem _ hk)

/-- The produced keys are distinct. -/
theorem newKeys_nodup :
    ∀ (rs : List (String × ℚ)) (seen : List String),
      (newKeys rs seen).Nodup := by
  intro rs
  induction rs with
  | nil => intro _; exact List.nodup_nil
  | cons r rest ih =>
    intro seen
    by_cases hm : r.1 ∈ seen
    · rw [newKeys, if_pos hm]; exact ih seen
    · rw [newKeys, if_neg hm]
      refine List.nodup_cons.mpr ⟨?_, ih _⟩
      intro hmem
      exact newKeys_not_seen rest (r.1 :: seen) r.1 hmem (List.mem_cons_self _ _)

/-- Membership in the produced keys. -/
theorem newKeys_mem_iff :
    ∀ (rs : List (String × ℚ)) (seen : List String) (k : String),
      k ∈ newKeys rs seen ↔ k ∈ rs.map Prod.fst ∧ k ∉ seen := by
  intro rs
  induction rs with
  | nil => intro seen k; simp [newKeys]
  | cons r rest ih =>
    intro seen k
    by_cases hm : r.1 ∈ seen
    · rw [newKeys, if_pos hm, ih]
      simp only [List.map_cons, List.mem_cons]
      constructor
      · rintro ⟨h1, h2⟩
        exact ⟨Or.inr h1, h2⟩
      · rintro ⟨h1 | h1, h2⟩
        · subst h1; exact absurd hm h2
        · exact ⟨h1, h2⟩
    · rw [newKeys, if_neg hm]
      simp only [List.mem_cons, ih, List.map_cons]
      constructor
      · rintro (he | ⟨h1, h2⟩)
        · subst he; exact ⟨Or.inl rfl, hm⟩
        · exact ⟨Or.inr h1, fun hk => h2 (Or.inr hk)⟩
      · rintro ⟨h1 | h1, h2⟩
        · exact Or.inl h1
        · by_cases hk : k = r.1
          · exact Or.inl hk
          · refine Or.inr ⟨h1, ?_⟩
            push_neg
            exact ⟨hk, h2⟩

/-- Scores of a key under a cons. -/
theorem scoresOf_cons (r : String × ℚ) (rest : List (String × ℚ)) (k : String) :
    scoresOf (r :: rest) k =
      if r.1 = k then r.2 :: scoresOf rest k else scoresOf rest k := by
  by_cases h : r.1 = k
  · simp [scoresOf, List.filter_cons, h]
  · simp [scoresOf, List.filter_cons, h]

/-- The `promptScores` loop of `calculateCorrectnessScore`, characterized:
existing entries receive their scores appended, fresh keys are appended
in first-occurrence order, each carrying its scores. -/
theorem buildLoop_eq :
    ∀ (pairs : List (String × ℚ)) (m : List (String × List ℚ)),
      (keysOf m).Nodup →
      pairs.foldl (fun acc r => insertScore acc r.1 r.2) m =
        m.map (fun kv => (kv.1, kv.2 ++ scoresOf pairs kv.1)) ++
          (newKeys pairs (keysOf m)).map fun k => (k, scoresOf pairs k) := by
  intro pairs
  induction pairs with
  | nil =>
    intro m _
    simp [newKeys, scoresOf]
  | cons r rest ih =>
    intro m hnd
    rw [List.foldl_cons]
    by_cases hm : r.1 ∈ keysOf m
    · rw [ih (insertScore m r.1 r.2) (keysOf_insertScore_nodup _ _ _ hnd),
        insertScore_mem r.1 r.2 m hnd hm]
      have hkeys : keysOf
          (m.map fun kv => if kv.1 = r.1 then (kv.1, kv.2 ++ [r.2]) else kv) =
          keysOf m := by
        unfold keysOf
        rw [List.map_map]
        refine List.map_congr_left fun kv _ => ?_
        by_cases h : kv.1 = r.1 <;> simp [h]
      rw [hkeys]
      have hmapped :
          (m.map fun kv => if kv.1 = r.1 then (kv.1, kv.2 ++ [r.2]) else kv).map
              (fun kv => (kv.1, kv.2 ++ scoresOf rest kv.1)) =
            m.map fun kv => (kv.1, kv.2 ++ scoresOf (r :: rest) kv.1) := by
        rw [List.map_map]
        refine List.map_congr_left fun kv _ => ?_
        by_cases h : kv.1 = r.1
        · simp [Function.comp, h, scoresOf_cons, List.append_assoc]
        · simp [Function.comp, h, scoresOf_cons, Ne.symm h]
      rw [hmapped]
      have hnew : newKeys (r :: rest) (keysOf m) = newKeys rest (keysOf m) := by
        rw [newKeys, if_pos hm]
      rw [hnew]
      congr 1
      refine List.map_congr_left fun k hk => ?_
      have hk1 : k ≠ r.1 := by
        intro he
        exact newKeys_not_seen rest (keysOf m) k hk (he ▸ hm)
      rw [scoresOf_cons, if_neg (Ne.symm hk1)]
    · have hstep : insertScore m r.1 r.2 = m ++ [(r.1, [r.2])] :=
        insertScore_not_mem r.1 r.2 m hm
      have hnd2 : (keysOf (insertScore m r.1 r.2)).Nodup :=
        keysOf_insertScore_nodup _ _ _ hnd
      have hkeys : keysOf (m ++ [(r.1, [r.2])]) = keysOf m ++ [r.1] := by
        unfold keysOf
        rw [List.map_append]
        rfl
      rw [ih (insertScore m r.1 r.2) hnd2, hstep, hkeys, List.map_append]
      have hmapped2 : m.map (fun kv => (kv.1, kv.2 ++ scoresOf rest kv.1)) =
          m.map fun kv => (kv.1, kv.2 ++ scoresOf (r :: rest) kv.1) := by
        refine List.map_congr_left fun kv hkv => ?_
        have hkv1 : kv.1 ≠ r.1 := by
          intro he
          exact hm (he ▸ List.mem_map_of_mem Prod.fst hkv)
        rw [scoresOf_cons, if_neg (Ne.symm hkv1)]
      rw [hmapped2]
      have hseen : newKeys rest (keysOf m ++ [r.1]) =
          newKeys rest (r.1 :: keysOf m) :=
        newKeys_congr rest _ _ fun x => by simp [or_comm]
      rw [hseen]
      have hnew : newKeys (r :: rest) (keysOf m) =
          r.1 :: newKeys rest (r.1 :: keysOf m) := by
        rw [newKeys, if_neg hm]
      rw [hnew, List.map_cons, List.map_cons]
      have hhead : scoresOf (r :: rest) r.1 = r.2 :: scoresOf rest r.1 := by
        rw [scoresOf_cons, if_pos rfl]
      rw [hhead]
      have htail : (newKeys rest (r.1 :: keysOf m)).map
            (fun k => (k, scoresOf rest k)) =
          (newKeys rest (r.1 :: keysOf m)).map
            fun k => (k, scoresOf (r :: rest) k) := by
        refine List.map_congr_left fun k hk => ?_
        have hk1 : r.1 ≠ k := by
          intro he
          exact newKeys_not_seen rest (r.1 :: keysOf m) k hk
            (he ▸ List.mem_cons_self _ _)
        rw [scoresOf_cons, if_neg hk1]
      rw [htail]
      simp [List.append_assoc]


/-- C6: `calculateCorrectnessScore` equals the specified best-of-N
aggregate — the sum, over each correctness prompt id having at least one
replicate result, of the maximum score among the replicates of that prompt —
and replicate scores `[1, 0]` for catalog prompt P1 contribute exactly
`1` (the maximum, not the average or the sum). -/
theorem correctness_score_best_of_n :
    (∀ (prompts : List TestPrompt) (results : List TestResult),
      calculateCorrectnessScore prompts results =
        specCorrectnessScore prompts results) ∧
    calculateCorrectnessScore [promptP1] [resultP1a, resultP1b] = 1 := by
  constructor
  · intro prompts results
    unfold calculateCorrectnessScore specCorrectnessScore
    dsimp only
    set cr := results.filter (isCorrectnessResult prompts) with hcr
    set pairs := cr.map fun r => (r.promptId, r.score) with hpairs
    unfold buildPromptScores
    rw [buildLoop_eq pairs [] List.nodup_nil]
    have hk0 : keysOf ([] : List (String × List ℚ)) = [] := rfl
    rw [hk0]
    simp only [List.map_nil, List.nil_append, List.map_map]
    have hcomp : ((fun kv : String × List ℚ => listMax kv.2) ∘
        fun k => (k, scoresOf pairs k)) = fun k => listMax (scoresOf pairs k) :=
      rfl
    rw [hcomp]
    have hscores : ∀ pid, (cr.filter fun r => r.promptId == pid).map (·.score) =
        scoresOf pairs pid := by
      intro pid
      unfold scoresOf
      rw [hpairs, List.filter_map, List.map_map]
      rfl
    have hsetEq : (cr.map (·.promptId)).toFinset =
        (newKeys pairs []).toFinset := by
      ext k
      simp only [List.mem_toFinset, newKeys_mem_iff, List.not_mem_nil,
        not_false_iff, and_true]
      rw [hpairs, List.map_map]
      exact Iff.rfl
    rw [hsetEq, List.sum_toFinset _ (newKeys_nodup pairs [])]
    congr 1
    refine List.map_congr_left fun k _ => ?_
    rw [hscores k]
  · show (([("P1", [1, 0])] : List (String × List ℚ)).map fun kv =>
      listMax kv.2).sum = 1
    simp [listMax]

end NerfDetector
